import Mathlib

/-!
Verification of the `Adjusted` pipeline in `lineup/model/adjusted.py`.

The development shallowly embeds the pure content of the class methods:

* `possessions`          embeds `Adjusted._possessions`;
* `margins`              embeds `Adjusted._margins` (with a four-point value
                         type modelling numpy float division by zero);
* `matchupPerformances`  embeds `Adjusted._matchup_performances`;
* `oneHotPlayer`         embeds `Adjusted._one_hot_player` (including the
                         positional `iloc` write keyed by the row label);
* `seasonMatchups`       embeds the per-game loop of `Adjusted._matchups`;
* `fitRegression`        embeds `Adjusted.fit_regression` (the sklearn ridge
                         solver is an external collaborator and is passed in
                         as an abstract coefficient-producing function).

Numeric cells are rationals; a cell that is absent or non-numeric is `none`.
-/

/-- One matchup record's box-score cells as consumed by
`Adjusted._possessions`.  A `none` field models a cell that is absent or
non-numeric, so that using it in the possession formula raises
(`KeyError`/`TypeError`) inside the method's `try` block. -/
structure StatRow where
  fga_home : Option ℚ
  fta_home : Option ℚ
  oreb_home : Option ℚ
  dreb_home : Option ℚ
  fgm_home : Option ℚ
  to_home : Option ℚ
  fga_visitor : Option ℚ
  fta_visitor : Option ℚ
  oreb_visitor : Option ℚ
  dreb_visitor : Option ℚ
  fgm_visitor : Option ℚ
  to_visitor : Option ℚ

/-- The twelve numeric box-score values once every cell lookup has
succeeded. -/
structure Stats where
  fga_home : ℚ
  fta_home : ℚ
  oreb_home : ℚ
  dreb_home : ℚ
  fgm_home : ℚ
  to_home : ℚ
  fga_visitor : ℚ
  fta_visitor : ℚ
  oreb_visitor : ℚ
  dreb_visitor : ℚ
  fgm_visitor : ℚ
  to_visitor : ℚ

/-- Gather the twelve cells used by the possession formula; `none` as soon as
any one of them is absent or non-numeric.  In `Adjusted._possessions` every
one of these lookups happens inside the `try`, and any failing lookup aborts
the whole assignment, so hoisting the lookups is observationally identical. -/
def reqStats (m : StatRow) : Option Stats :=
  m.fga_home.bind fun a =>
  m.fta_home.bind fun b =>
  m.oreb_home.bind fun c =>
  m.dreb_home.bind fun d =>
  m.fgm_home.bind fun e =>
  m.to_home.bind fun f =>
  m.fga_visitor.bind fun g =>
  m.fta_visitor.bind fun hq =>
  m.oreb_visitor.bind fun i =>
  m.dreb_visitor.bind fun j =>
  m.fgm_visitor.bind fun k =>
  m.to_visitor.bind fun l =>
  some ⟨a, b, c, d, e, f, g, hq, i, j, k, l⟩

/-- Embedding of `Adjusted._possessions(matchup, possession_type)`.

The Python body initialises `possessions = 0`, computes the formula for the
`'home'` or `'visitor'` branch inside a `try`, and returns the initial `0`
whenever the computation raises: a missing/non-numeric cell, or a
`ZeroDivisionError` from either rebound fraction (both fractions occur in
both branches).  A `possession_type` that is neither `'home'` nor
`'visitor'` selects no branch and the initial `0` is returned. -/
def possessions (m : StatRow) (possession_type : String) : ℚ :=
  match reqStats m with
  | none => 0
  | some s =>
    if possession_type = "home" then
      if s.oreb_home + s.dreb_visitor = 0 ∨ s.oreb_visitor + s.dreb_home = 0 then 0
      else
        0.5 * ((s.fga_home + 0.4 * s.fta_home
                 - 1.07 * (s.oreb_home / (s.oreb_home + s.dreb_visitor))
                     * (s.fga_home - s.fgm_home)
                 + s.to_home)
             + (s.fga_visitor + 0.4 * s.fta_visitor
                 - 1.07 * (s.oreb_visitor / (s.oreb_visitor + s.dreb_home))
                     * (s.fga_visitor - s.fgm_visitor)
                 + s.to_visitor))
    else if possession_type = "visitor" then
      if s.oreb_visitor + s.dreb_home = 0 ∨ s.oreb_home + s.dreb_visitor = 0 then 0
      else
        0.5 * ((s.fga_visitor + 0.4 * s.fta_visitor
                 - 1.07 * (s.oreb_visitor / (s.oreb_visitor + s.dreb_home))
                     * (s.fga_visitor - s.fgm_visitor)
                 + s.to_visitor)
             + (s.fga_home + 0.4 * s.fta_home
                 - 1.07 * (s.oreb_home / (s.oreb_home + s.dreb_visitor))
                     * (s.fga_home - s.fgm_home)
                 + s.to_home))
    else 0

/-- A matchup record all of whose twelve box-score cells are numeric. -/
def mkStat (fgaH ftaH orebH drebH fgmH toH fgaV ftaV orebV drebV fgmV toV : ℚ) :
    StatRow :=
  ⟨some fgaH, some ftaH, some orebH, some drebH, some fgmH, some toH,
   some fgaV, some ftaV, some orebV, some drebV, some fgmV, some toV⟩

/-- Relabel home as visitor and vice versa on a matchup record (the side
swap of the spec's symmetry property). -/
def swapStat (m : StatRow) : StatRow :=
  ⟨m.fga_visitor, m.fta_visitor, m.oreb_visitor, m.dreb_visitor,
   m.fgm_visitor, m.to_visitor,
   m.fga_home, m.fta_home, m.oreb_home, m.dreb_home, m.fgm_home, m.to_home⟩

/-- Some cell required by the possession formula is absent or non-numeric. -/
def missingStat (m : StatRow) : Prop :=
  m.fga_home = none ∨ m.fta_home = none ∨ m.oreb_home = none ∨
  m.dreb_home = none ∨ m.fgm_home = none ∨ m.to_home = none ∨
  m.fga_visitor = none ∨ m.fta_visitor = none ∨ m.oreb_visitor = none ∨
  m.dreb_visitor = none ∨ m.fgm_visitor = none ∨ m.to_visitor = none

lemma someBindEq {α β : Type} (a : α) (f : α → Option β) :
    (some a).bind f = f a := rfl

lemma noneBindEq {α β : Type} (f : α → Option β) :
    (Option.none).bind f = (none : Option β) := rfl

lemma bindNoneEq {α β : Type} (o : Option α) :
    (o.bind fun _ => (none : Option β)) = none := by cases o <;> rfl

lemma reqStats_some {m : StatRow} {s : Stats} (hs : reqStats m = some s) :
    m.fga_home = some s.fga_home ∧ m.fta_home = some s.fta_home ∧
    m.oreb_home = some s.oreb_home ∧ m.dreb_home = some s.dreb_home ∧
    m.fgm_home = some s.fgm_home ∧ m.to_home = some s.to_home ∧
    m.fga_visitor = some s.fga_visitor ∧ m.fta_visitor = some s.fta_visitor ∧
    m.oreb_visitor = some s.oreb_visitor ∧ m.dreb_visitor = some s.dreb_visitor ∧
    m.fgm_visitor = some s.fgm_visitor ∧ m.to_visitor = some s.to_visitor := by
  obtain ⟨f1, f2, f3, f4, f5, f6, f7, f8, f9, f10, f11, f12⟩ := m
  cases f1 with
  | none => exact Option.noConfusion hs
  | some a =>
  cases f2 with
  | none => exact Option.noConfusion hs
  | some b =>
  cases f3 with
  | none => exact Option.noConfusion hs
  | some c =>
  cases f4 with
  | none => exact Option.noConfusion hs
  | some d =>
  cases f5 with
  | none => exact Option.noConfusion hs
  | some e =>
  cases f6 with
  | none => exact Option.noConfusion hs
  | some f =>
  cases f7 with
  | none => exact Option.noConfusion hs
  | some g =>
  cases f8 with
  | none => exact Option.noConfusion hs
  | some hb =>
  cases f9 with
  | none => exact Option.noConfusion hs
  | some i =>
  cases f10 with
  | none => exact Option.noConfusion hs
  | some j =>
  cases f11 with
  | none => exact Option.noConfusion hs
  | some k =>
  cases f12 with
  | none => exact Option.noConfusion hs
  | some l =>
    have hrep : reqStats ⟨some a, some b, some c, some d, some e, some f,
        some g, some hb, some i, some j, some k, some l⟩ =
        some ⟨a, b, c, d, e, f, g, hb, i, j, k, l⟩ := rfl
    rw [hrep] at hs
    injection hs with hs
    subst hs
    exact ⟨rfl, rfl, rfl, rfl, rfl, rfl, rfl, rfl, rfl, rfl, rfl, rfl⟩

lemma reqStats_none (m : StatRow) (hm : missingStat m) : reqStats m = none := by
  cases hreq : reqStats m with
  | none => rfl
  | some s =>
    exfalso
    obtain ⟨c1, c2, c3, c4, c5, c6, c7, c8, c9, c10, c11, c12⟩ := reqStats_some hreq
    rcases hm with h | h | h | h | h | h | h | h | h | h | h | h
    · rw [h] at c1; exact Option.noConfusion c1
    · rw [h] at c2; exact Option.noConfusion c2
    · rw [h] at c3; exact Option.noConfusion c3
    · rw [h] at c4; exact Option.noConfusion c4
    · rw [h] at c5; exact Option.noConfusion c5
    · rw [h] at c6; exact Option.noConfusion c6
    · rw [h] at c7; exact Option.noConfusion c7
    · rw [h] at c8; exact Option.noConfusion c8
    · rw [h] at c9; exact Option.noConfusion c9
    · rw [h] at c10; exact Option.noConfusion c10
    · rw [h] at c11; exact Option.noConfusion c11
    · rw [h] at c12; exact Option.noConfusion c12

lemma possessions_mkStat_home
    (fgaH ftaH orebH drebH fgmH toH fgaV ftaV orebV drebV fgmV toV : ℚ) :
    possessions (mkStat fgaH ftaH orebH drebH fgmH toH fgaV ftaV orebV drebV fgmV toV)
      "home" =
    if orebH + drebV = 0 ∨ orebV + drebH = 0 then 0
    else
      0.5 * ((fgaH + 0.4 * ftaH - 1.07 * (orebH / (orebH + drebV)) * (fgaH - fgmH) + toH)
           + (fgaV + 0.4 * ftaV - 1.07 * (orebV / (orebV + drebH)) * (fgaV - fgmV) + toV)) :=
  rfl

lemma possessions_mkStat_visitor
    (fgaH ftaH orebH drebH fgmH toH fgaV ftaV orebV drebV fgmV toV : ℚ) :
    possessions (mkStat fgaH ftaH orebH drebH fgmH toH fgaV ftaV orebV drebV fgmV toV)
      "visitor" =
    if orebV + drebH = 0 ∨ orebH + drebV = 0 then 0
    else
      0.5 * ((fgaV + 0.4 * ftaV - 1.07 * (orebV / (orebV + drebH)) * (fgaV - fgmV) + toV)
           + (fgaH + 0.4 * ftaH - 1.07 * (orebH / (orebH + drebV)) * (fgaH - fgmH) + toH)) :=
  rfl

/-- C1: on a record whose box-score cells are all numeric and whose rebound
denominators `OREB_S + DREB_O` and `OREB_O + DREB_S` are nonzero, the
possession estimate of `Adjusted._possessions` for either requested side `S`
equals `0.5 * ((FGA_S + 0.4 FTA_S - 1.07 (OREB_S/(OREB_S+DREB_O)) (FGA_S-FGM_S) + TO_S)
+ (FGA_O + 0.4 FTA_O - 1.07 (OREB_O/(OREB_O+DREB_S)) (FGA_O-FGM_O) + TO_O))`
with `O` the opposite side. -/
theorem possessions_formula
    (fgaH ftaH orebH drebH fgmH toH fgaV ftaV orebV drebV fgmV toV : ℚ)
    (hd1 : orebH + drebV ≠ 0) (hd2 : orebV + drebH ≠ 0) :
    possessions (mkStat fgaH ftaH orebH drebH fgmH toH fgaV ftaV orebV drebV fgmV toV)
        "home" =
      0.5 * ((fgaH + 0.4 * ftaH - 1.07 * (orebH / (orebH + drebV)) * (fgaH - fgmH) + toH)
           + (fgaV + 0.4 * ftaV - 1.07 * (orebV / (orebV + drebH)) * (fgaV - fgmV) + toV))
  ∧ possessions (mkStat fgaH ftaH orebH drebH fgmH toH fgaV ftaV orebV drebV fgmV toV)
        "visitor" =
      0.5 * ((fgaV + 0.4 * ftaV - 1.07 * (orebV / (orebV + drebH)) * (fgaV - fgmV) + toV)
           + (fgaH + 0.4 * ftaH - 1.07 * (orebH / (orebH + drebV)) * (fgaH - fgmH) + toH)) := by
  constructor
  · rw [possessions_mkStat_home, if_neg (fun hc => hc.elim hd1 hd2)]
  · rw [possessions_mkStat_visitor, if_neg (fun hc => hc.elim hd2 hd1)]

/-- Witness for C1 at a concrete record. -/
theorem possessions_formula_witness :
    possessions (mkStat 10 4 3 5 4 2 11 5 2 6 5 3) "home" =
      0.5 * ((10 + 0.4 * 4 - 1.07 * (3 / (3 + 6)) * (10 - 4) + 2)
           + (11 + 0.4 * 5 - 1.07 * (2 / (2 + 5)) * (11 - 5) + 3))
  ∧ possessions (mkStat 10 4 3 5 4 2 11 5 2 6 5 3) "visitor" =
      0.5 * ((11 + 0.4 * 5 - 1.07 * (2 / (2 + 5)) * (11 - 5) + 3)
           + (10 + 0.4 * 4 - 1.07 * (3 / (3 + 6)) * (10 - 4) + 2)) :=
  possessions_formula 10 4 3 5 4 2 11 5 2 6 5 3 (by norm_num) (by norm_num)

/-- C5: the possession estimate falls back to exactly `0` (without raising)
when the requested side's rebound denominator `OREB_S + DREB_O` is zero, and
likewise when any required box-score cell is absent or non-numeric. -/
theorem possessions_guard (m : StatRow) :
    (∀ oh dv, m.oreb_home = some oh → m.dreb_visitor = some dv → oh + dv = 0 →
      possessions m "home" = 0)
  ∧ (∀ ov dh, m.oreb_visitor = some ov → m.dreb_home = some dh → ov + dh = 0 →
      possessions m "visitor" = 0)
  ∧ (missingStat m → possessions m "home" = 0 ∧ possessions m "visitor" = 0) := by
  refine ⟨?_, ?_, ?_⟩
  · intro oh dv h1 h2 h3
    cases hreq : reqStats m with
    | none => simp [possessions, hreq]
    | some s =>
      obtain ⟨_, _, e1, _, _, _, _, _, _, e4, _, _⟩ := reqStats_some hreq
      have ea : oh = s.oreb_home := by
        have := h1.symm.trans e1
        injection this
      have eb : dv = s.dreb_visitor := by
        have := h2.symm.trans e4
        injection this
      have hg : s.oreb_home + s.dreb_visitor = 0 := by rw [← ea, ← eb]; exact h3
      simp [possessions, hreq, hg]
  · intro ov dh h1 h2 h3
    cases hreq : reqStats m with
    | none => simp [possessions, hreq]
    | some s =>
      obtain ⟨_, _, _, e2, _, _, _, _, e3, _, _, _⟩ := reqStats_some hreq
      have ea : ov = s.oreb_visitor := by
        have := h1.symm.trans e3
        injection this
      have eb : dh = s.dreb_home := by
        have := h2.symm.trans e2
        injection this
      have hg : s.oreb_visitor + s.dreb_home = 0 := by rw [← ea, ← eb]; exact h3
      simp [possessions, hreq, hg]
  · intro hm
    have hn := reqStats_none m hm
    constructor <;> simp [possessions, hn]

/-- Witness for C5: a zero rebound denominator and a missing cell both give
an estimate of exactly `0`. -/
theorem possessions_guard_witness :
    possessions (mkStat 10 4 1 5 4 2 11 5 2 (-1) 5 3) "home" = 0
  ∧ (possessions ⟨none, some 1, some 1, some 1, some 1, some 1, some 1, some 1,
      some 1, some 1, some 1, some 1⟩ "home" = 0
    ∧ possessions ⟨none, some 1, some 1, some 1, some 1, some 1, some 1, some 1,
      some 1, some 1, some 1, some 1⟩ "visitor" = 0) :=
  ⟨(possessions_guard _).1 1 (-1) rfl rfl (by norm_num),
   (possessions_guard _).2.2 (Or.inl rfl)⟩

/-- C8: with all cells numeric and both rebound denominators nonzero, the
estimate is symmetric under the side swap: relabelling home and visitor and
asking for the home side yields the visitor-side value, and on one and the
same record the home-side and visitor-side estimates are equal. -/
theorem possessions_side_symm
    (fgaH ftaH orebH drebH fgmH toH fgaV ftaV orebV drebV fgmV toV : ℚ)
    (hd1 : orebH + drebV ≠ 0) (hd2 : orebV + drebH ≠ 0) :
    possessions (swapStat (mkStat fgaH ftaH orebH drebH fgmH toH fgaV ftaV orebV drebV fgmV toV))
        "home" =
      possessions (mkStat fgaH ftaH orebH drebH fgmH toH fgaV ftaV orebV drebV fgmV toV)
        "visitor"
  ∧ possessions (mkStat fgaH ftaH orebH drebH fgmH toH fgaV ftaV orebV drebV fgmV toV)
        "home" =
      possessions (mkStat fgaH ftaH orebH drebH fgmH toH fgaV ftaV orebV drebV fgmV toV)
        "visitor" := by
  constructor
  · rfl
  · rw [possessions_mkStat_home, possessions_mkStat_visitor,
      if_neg (fun hc => hc.elim hd1 hd2), if_neg (fun hc => hc.elim hd2 hd1)]
    ring

/-- Witness for C8 at a concrete record. -/
theorem possessions_side_symm_witness :
    possessions (swapStat (mkStat 10 4 3 5 4 2 11 5 2 6 5 3)) "home" =
      possessions (mkStat 10 4 3 5 4 2 11 5 2 6 5 3) "visitor"
  ∧ possessions (mkStat 10 4 3 5 4 2 11 5 2 6 5 3) "home" =
      possessions (mkStat 10 4 3 5 4 2 11 5 2 6 5 3) "visitor" :=
  possessions_side_symm 10 4 3 5 4 2 11 5 2 6 5 3 (by norm_num) (by norm_num)

/-- C10: a `possession_type` other than `"home"` and `"visitor"` selects no
branch of `Adjusted._possessions`, so the initial `0` is returned for every
record. -/
theorem possessions_unknown_side (m : StatRow) (s : String)
    (h1 : s ≠ "home") (h2 : s ≠ "visitor") : possessions m s = 0 := by
  cases hreq : reqStats m with
  | none => simp [possessions, hreq]
  | some st => simp [possessions, hreq, h1, h2]

/-- Witness for C10 at a concrete record and side string. -/
theorem possessions_unknown_side_witness :
    possessions (mkStat 1 2 3 4 5 6 7 8 9 10 11 12) "neither" = 0 :=
  possessions_unknown_side _ _ (by decide) (by decide)

/-- A matchup record at the point where `Adjusted._margins` runs: points and
the two possession estimates already attached by `Adjusted._matchups`. -/
structure MarginRow where
  pts_home : ℚ
  pts_visitor : ℚ
  poss_home : ℚ
  poss_visitor : ℚ
deriving DecidableEq

/-- Numpy floating-point values as far as `_margins` can observe them: a
finite value, either infinity, or NaN.  Division of numpy scalars by zero
does not raise; it produces an infinity (or NaN for `0/0`). -/
inductive NF where
  | fin (q : ℚ)
  | pinf
  | ninf
  | nan
deriving DecidableEq

/-- Numpy division of two finite values. -/
def nfdiv (a b : ℚ) : NF :=
  if b = 0 then (if a = 0 then NF.nan else if 0 < a then NF.pinf else NF.ninf)
  else NF.fin (a / b)

/-- Numpy subtraction on the observed value class. -/
def nfsub : NF → NF → NF
  | NF.nan, _ => NF.nan
  | _, NF.nan => NF.nan
  | NF.fin a, NF.fin b => NF.fin (a - b)
  | NF.pinf, NF.fin _ => NF.pinf
  | NF.pinf, NF.pinf => NF.nan
  | NF.pinf, NF.ninf => NF.pinf
  | NF.ninf, NF.fin _ => NF.ninf
  | NF.ninf, NF.ninf => NF.nan
  | NF.ninf, NF.pinf => NF.ninf
  | NF.fin _, NF.pinf => NF.ninf
  | NF.fin _, NF.ninf => NF.pinf

/-- Multiplication by the positive constant `100`. -/
def nfmul100 : NF → NF
  | NF.fin a => NF.fin (100 * a)
  | x => x

/-- Embedding of `Adjusted._margins(game_matchups)`: precompute the two
game-average rates from column sums, then emit one value per record in
order: NaN when both possession counts are `0`, otherwise
`100 * (hv - av)` where each side's rate is `points / possessions` when that
side's possessions are `> 0` and the game-average rate otherwise. -/
def margins (rs : List MarginRow) : List NF :=
  let home_game_avg :=
    nfdiv (rs.map (fun r => r.pts_home)).sum (rs.map (fun r => r.poss_home)).sum
  let away_game_avg :=
    nfdiv (rs.map (fun r => r.pts_visitor)).sum (rs.map (fun r => r.poss_visitor)).sum
  rs.map (fun m =>
    if m.poss_home = 0 ∧ m.poss_visitor = 0 then NF.nan
    else
      nfmul100 (nfsub
        (if 0 < m.poss_home then NF.fin (m.pts_home / m.poss_home) else home_game_avg)
        (if 0 < m.poss_visitor then NF.fin (m.pts_visitor / m.poss_visitor)
         else away_game_avg)))

/-- C2 counterexample: in a game whose records give one side zero total
possessions, a record that does not have both possession counts zero still
gets a NaN margin (here via the `0/0` game average), refuting both the
claimed NaN-iff-both-zero characterisation and the claimed finiteness. -/
theorem margins_nan_cex :
    margins [⟨0, 4, 0, 2⟩] = [NF.nan]
  ∧ (⟨0, 4, 0, 2⟩ : MarginRow).poss_home = 0
  ∧ (⟨0, 4, 0, 2⟩ : MarginRow).poss_visitor = 2 := by
  refine ⟨?_, rfl, rfl⟩
  norm_num [margins, nfdiv, nfsub, nfmul100, List.map_cons, List.map_nil,
    List.sum_cons, List.sum_nil]

/-- C2 (amended): with nonnegative possession counts, and a positive
game-level possession total for any side that some record needs as a
fallback, `_margins` emits one value per record in order, NaN exactly on the
records with both possession counts zero, and otherwise the finite value
`100 * (home rate - visitor rate)` under the documented fallback rule. -/
theorem margins_spec (rs : List MarginRow)
    (hpos : ∀ m ∈ rs, 0 ≤ m.poss_home ∧ 0 ≤ m.poss_visitor)
    (hh : (∃ m ∈ rs, ¬(m.poss_home = 0 ∧ m.poss_visitor = 0) ∧ m.poss_home = 0) →
      0 < (rs.map (fun r => r.poss_home)).sum)
    (ha : (∃ m ∈ rs, ¬(m.poss_home = 0 ∧ m.poss_visitor = 0) ∧ m.poss_visitor = 0) →
      0 < (rs.map (fun r => r.poss_visitor)).sum) :
    margins rs = rs.map (fun m =>
      if m.poss_home = 0 ∧ m.poss_visitor = 0 then NF.nan
      else NF.fin (100 *
        ((if 0 < m.poss_home then m.pts_home / m.poss_home
          else (rs.map (fun r => r.pts_home)).sum / (rs.map (fun r => r.poss_home)).sum)
       - (if 0 < m.poss_visitor then m.pts_visitor / m.poss_visitor
          else (rs.map (fun r => r.pts_visitor)).sum /
            (rs.map (fun r => r.poss_visitor)).sum)))) := by
  simp only [margins]
  refine List.map_congr_left ?_
  intro m hm
  by_cases hb : m.poss_home = 0 ∧ m.poss_visitor = 0
  · rw [if_pos hb, if_pos hb]
  · rw [if_neg hb, if_neg hb]
    have hhv : (if 0 < m.poss_home then NF.fin (m.pts_home / m.poss_home)
          else nfdiv (rs.map (fun r => r.pts_home)).sum (rs.map (fun r => r.poss_home)).sum)
        = NF.fin (if 0 < m.poss_home then m.pts_home / m.poss_home
          else (rs.map (fun r => r.pts_home)).sum / (rs.map (fun r => r.poss_home)).sum) := by
      by_cases hph : 0 < m.poss_home
      · rw [if_pos hph, if_pos hph]
      · have hz : m.poss_home = 0 := le_antisymm (not_lt.mp hph) (hpos m hm).1
        have hsum := hh ⟨m, hm, hb, hz⟩
        rw [if_neg hph, if_neg hph, nfdiv, if_neg (ne_of_gt hsum)]
    have hav : (if 0 < m.poss_visitor then NF.fin (m.pts_visitor / m.poss_visitor)
          else nfdiv (rs.map (fun r => r.pts_visitor)).sum
            (rs.map (fun r => r.poss_visitor)).sum)
        = NF.fin (if 0 < m.poss_visitor then m.pts_visitor / m.poss_visitor
          else (rs.map (fun r => r.pts_visitor)).sum /
            (rs.map (fun r => r.poss_visitor)).sum) := by
      by_cases hpv : 0 < m.poss_visitor
      · rw [if_pos hpv, if_pos hpv]
      · have hz : m.poss_visitor = 0 := le_antisymm (not_lt.mp hpv) (hpos m hm).2
        have hsum := ha ⟨m, hm, hb, hz⟩
        rw [if_neg hpv, if_neg hpv, nfdiv, if_neg (ne_of_gt hsum)]
    rw [hhv, hav]
    rfl

/-- Witness for C2 (amended) on a two-record game exercising both fallback
branches. -/
theorem margins_spec_witness :
    margins [⟨2, 3, 4, 0⟩, ⟨1, 1, 0, 5⟩] = [NF.fin (-30), NF.fin 55] := by
  have h := margins_spec [⟨2, 3, 4, 0⟩, ⟨1, 1, 0, 5⟩]
    (by intro m hm; fin_cases hm <;> exact ⟨by norm_num, by norm_num⟩)
    (by intro hex; norm_num [List.map_cons, List.map_nil, List.sum_cons, List.sum_nil])
    (by intro hex; norm_num [List.map_cons, List.map_nil, List.sum_cons, List.sum_nil])
  rw [h]
  norm_num [List.map_cons, List.map_nil, List.sum_cons, List.sum_nil]

/-- The per-side totals that `Adjusted._performance` aggregates for one
matchup window; only the two point totals are consumed by
`_matchup_performances`. -/
structure Perf where
  pts_home : ℤ
  pts_visitor : ℤ
deriving DecidableEq

/-- The outcome labelling of `Adjusted._matchup_performances`: `+1` when the
home side outscored the visitor in the window, `-1` otherwise (the `elif`
branch covers differentials `<= 0`, so ties get `-1`). -/
def outcomeLabel (p : Perf) : ℤ :=
  if 0 < p.pts_home - p.pts_visitor then 1 else -1

/-- Embedding of `Adjusted._matchup_performances(matchups, pbp)`: walk the
game's records in order; a record whose derived performance vector is empty
(`perf` returns `none`) is dropped; every kept record is labelled with its
outcome and appended in order. -/
def matchupPerformances {α : Type} (ms : List α) (perf : α → Option Perf) :
    List (α × ℤ) :=
  match ms with
  | [] => []
  | m :: rest =>
    match perf m with
    | some p => (m, outcomeLabel p) :: matchupPerformances rest perf
    | none => matchupPerformances rest perf

lemma matchupPerformances_val {α : Type} {ms : List α} {perf : α → Option Perf}
    {x : α × ℤ} (hx : x ∈ matchupPerformances ms perf) :
    ∀ p, perf x.1 = some p → x.2 = outcomeLabel p := by
  induction ms with
  | nil => exact absurd hx (List.not_mem_nil x)
  | cons m rest ih =>
    intro p hp
    cases hpm : perf m with
    | none =>
      simp only [matchupPerformances, hpm] at hx
      exact ih hx p hp
    | some p0 =>
      simp only [matchupPerformances, hpm] at hx
      rcases List.mem_cons.mp hx with h | h
      · subst h
        simp only at hp
        rw [hpm] at hp
        injection hp with hp
        subst hp
        rfl
      · exact ih h p hp

/-- C3: `_matchup_performances` keeps exactly the records with a non-empty
performance vector (in order), and labels a kept record `+1` when the home
point differential is positive and `-1` otherwise, ties included. -/
theorem matchup_performances_spec {α : Type} (ms : List α)
    (perf : α → Option Perf) (x : α × ℤ) (p : Perf)
    (hx : x ∈ matchupPerformances ms perf) (hp : perf x.1 = some p) :
    (matchupPerformances ms perf).map Prod.fst =
      ms.filter (fun m => (perf m).isSome)
  ∧ (0 < p.pts_home - p.pts_visitor → x.2 = 1)
  ∧ (p.pts_home - p.pts_visitor ≤ 0 → x.2 = -1) := by
  refine ⟨?_, ?_, ?_⟩
  · clear hx hp x p
    induction ms with
    | nil => rfl
    | cons m rest ih =>
      cases hpm : perf m with
      | none => simp [matchupPerformances, hpm, ih]
      | some p0 => simp [matchupPerformances, hpm, ih]
  · intro hgt
    rw [matchupPerformances_val hx p hp, outcomeLabel, if_pos hgt]
  · intro hle
    rw [matchupPerformances_val hx p hp, outcomeLabel, if_neg (not_lt.mpr hle)]

/-- The concrete performance map used by the C3 witness. -/
def perfW : ℕ → Option Perf := fun n => if n = 7 then some ⟨5, 2⟩ else none

/-- Witness for C3 on a two-record game whose second record has an empty
performance vector. -/
theorem matchup_performances_witness :
    (matchupPerformances [7, 8] perfW).map Prod.fst =
      [7, 8].filter (fun m => (perfW m).isSome)
  ∧ ((0:ℤ) < 5 - 2 → ((7, 1) : ℕ × ℤ).2 = 1)
  ∧ ((5:ℤ) - 2 ≤ 0 → ((7, 1) : ℕ × ℤ).2 = -1) :=
  matchup_performances_spec [7, 8] perfW (7, 1) ⟨5, 2⟩ (by decide) (by decide)

/-- One raw matchup row as `Adjusted._one_hot_player` receives it: the row's
index label in the season-wide matchups table (pandas keeps the original
integer label through `.loc` slicing and `_matchup_performances`), and the
two five-player rosters read from the configured roster columns. -/
structure LRowIn where
  label : ℕ
  home_team : List String
  away_team : List String

/-- A matchup row after the player columns have been created: the same data
plus one signed indicator cell per player column. -/
structure LRowOut where
  label : ℕ
  home_team : List String
  away_team : List String
  cols : String → ℤ

/-- `game_matchups[player] = 0` for every pool player: every player column
starts at `0` on every row. -/
def initRow (r : LRowIn) : LRowOut :=
  ⟨r.label, r.home_team, r.away_team, fun _ => 0⟩

/-- `game_matchups.iloc[i, get_loc(p)] = v`: a strictly positional row write.
An out-of-bounds position raises `IndexError`, which the enclosing blanket
`except` swallows, leaving the frame unchanged. -/
def setCol (rows : List LRowOut) (i : ℕ) (p : String) (v : ℤ) : List LRowOut :=
  if h : i < rows.length then
    rows.set i
      (let r := rows.get ⟨i, h⟩
       ⟨r.label, r.home_team, r.away_team, fun q => if q = p then v else r.cols q⟩)
  else rows

/-- One iteration of the row loop in `Adjusted._one_hot_player`: write `+1`
at the row position given by the row's index label for each home-roster
player that is a column (pool member), then `-1` for each visitor-roster
player; a `get_loc` miss for a non-column player is swallowed and skipped. -/
def oneHotStep (pool : List String) (acc : List LRowOut) (r : LRowIn) :
    List LRowOut :=
  let acc1 := r.home_team.foldl
    (fun a p => if pool.contains p then setCol a r.label p 1 else a) acc
  r.away_team.foldl
    (fun a p => if pool.contains p then setCol a r.label p (-1) else a) acc1

/-- Embedding of `Adjusted._one_hot_player(game_matchups, player_info)`:
initialise every pool player's column to `0`, then iterate the rows in
order (labels and rosters are never mutated by the loop, so reading them
from the input list is equivalent) performing the positional writes. -/
def oneHotPlayer (pool : List String) (rows : List LRowIn) : List LRowOut :=
  rows.foldl (oneHotStep pool) (rows.map initRow)

/-- The qualifying player pool: `player_info.loc[player_info.MP >= threshold]`
projected to the player names (the code's default threshold is 388). -/
def playerPool (player_info : List (String × ℚ)) (threshold : ℚ) : List String :=
  (player_info.filter (fun pi => threshold ≤ pi.2)).map (fun pi => pi.1)

/-- The ten-player pool of the C4 failing input. -/
def poolTen : List String := ["A", "B", "C", "D", "E", "F", "G", "H", "I", "J"]

/-- The C4 failing input: a game whose single matchup row carries season
index label `1` (any game that does not open the season file), with ten
distinct rostered players, all in the pool. -/
def rowLbl1 : LRowIn := ⟨1, ["A", "B", "C", "D", "E"], ["F", "G", "H", "I", "J"]⟩

/-- C4 failing-input evaluation: on a one-row game whose row label is `1`,
every positional write `iloc[1, _]` is out of bounds and is swallowed, so
no player column of the encoded row is `+1` and none is `-1` — instead of
the claimed five `+1` and five `-1`.  The third conjunct checks the
modelled pool construction: a player below the minutes threshold is not a
column. -/
theorem one_hot_misindex_eval :
    (oneHotPlayer poolTen [rowLbl1]).map
      (fun r => poolTen.countP (fun p => r.cols p == 1)) = [0]
  ∧ (oneHotPlayer poolTen [rowLbl1]).map
      (fun r => poolTen.countP (fun p => r.cols p == -1)) = [0]
  ∧ playerPool [("A", 400), ("K", 100)] 388 = ["A"] := by
  refine ⟨by decide, by decide, ?_⟩
  norm_num [playerPool]

/-- The ways one round of the `Adjusted._matchups` game loop can fail: the
`TimeoutException` raised by the 30-second alarm of `time_limit(30)`, or any
other exception escaping the per-game states. -/
inductive GameErr where
  | timeout
  | other
deriving DecidableEq

/-- Embedding of the game loop of `Adjusted._matchups`: one `step` per game
over the whole per-game `with time_limit(30)` block (its final statement
appends the game's finished rows, so an interrupted game yields no rows at
all, modelled by an error result).  `except TimeoutException: continue` is
the only handler: a timeout skips just that game, while any other error
propagates out of the loop. -/
def seasonMatchups {G R : Type} (step : G → Except GameErr (List R)) :
    List G → List R → Except GameErr (List R)
  | [], acc => Except.ok acc
  | g :: gs, acc =>
    match step g with
    | Except.ok rows => seasonMatchups step gs (acc ++ rows)
    | Except.error GameErr.timeout => seasonMatchups step gs acc
    | Except.error GameErr.other => Except.error GameErr.other

/-- C6: a game whose per-game block times out is abandoned entirely: the
season-wide table is exactly what it would be without that game (zero rows
from it, no partial rows), and the remaining games are still processed. -/
theorem timeout_skips_game {G R : Type} (step : G → Except GameErr (List R))
    (pre post : List G) (g : G) (acc : List R)
    (h : step g = Except.error GameErr.timeout) :
    seasonMatchups step (pre ++ g :: post) acc =
      seasonMatchups step (pre ++ post) acc := by
  induction pre generalizing acc with
  | nil => simp only [List.nil_append, seasonMatchups, h]
  | cons x xs ih =>
    cases hstep : step x with
    | ok rows =>
      simp only [List.cons_append, seasonMatchups, hstep]
      exact ih _
    | error e =>
      cases e with
      | timeout =>
        simp only [List.cons_append, seasonMatchups, hstep]
        exact ih _
      | other => simp only [List.cons_append, seasonMatchups, hstep]

/-- The concrete step function of the C6 witness: game `1` times out, every
other game contributes one row. -/
def stepTimeout1 : ℕ → Except GameErr (List ℕ) :=
  fun g => if g = 1 then Except.error GameErr.timeout else Except.ok [g]

/-- Witness for C6 on a three-game season whose middle game times out. -/
theorem timeout_skips_game_witness :
    seasonMatchups stepTimeout1 ([0] ++ 1 :: [2]) [] =
      seasonMatchups stepTimeout1 ([0] ++ [2]) [] :=
  timeout_skips_game stepTimeout1 [0] [2] 1 [] rfl

/-- The concrete step function of the C7 counterexample: game `1` fails with
a non-timeout error, game `2` would succeed. -/
def stepOtherFail : ℕ → Except GameErr (List ℕ) :=
  fun g => if g = 1 then Except.error GameErr.other else Except.ok [g]

/-- C7 counterexample: a non-timeout failure in one game's sequence is not
swallowed and does not leave processing to continue with the next game —
the loop aborts and the error propagates to the caller, even though the
next game's step would have succeeded. -/
theorem nontimeout_propagates_cex :
    seasonMatchups stepOtherFail [1, 2] [] = Except.error GameErr.other
  ∧ stepOtherFail 2 = Except.ok [2] :=
  ⟨rfl, rfl⟩

/-- C7 (amended): only a timeout is swallowed (skipping just that game);
when every game either succeeds or times out, the loop returns the in-order
concatenation of the successful games' rows appended to the accumulator. -/
theorem season_isolation_amended {G R : Type} (step : G → Except GameErr (List R))
    (gs : List G) (acc : List R)
    (h : ∀ g ∈ gs, step g ≠ Except.error GameErr.other) :
    seasonMatchups step gs acc =
      Except.ok (acc ++ (gs.map (fun g => ((step g).toOption).getD [])).flatten) := by
  induction gs generalizing acc with
  | nil => simp [seasonMatchups]
  | cons g gs ih =>
    cases hstep : step g with
    | ok rows =>
      simp only [seasonMatchups, hstep]
      rw [ih _ (fun x hx => h x (List.mem_cons_of_mem _ hx))]
      simp [hstep, Except.toOption, List.append_assoc]
    | error e =>
      cases e with
      | timeout =>
        simp only [seasonMatchups, hstep]
        rw [ih _ (fun x hx => h x (List.mem_cons_of_mem _ hx))]
        simp [hstep, Except.toOption]
      | other => exact absurd hstep (h g (List.mem_cons_self g gs))

/-- Witness for C7 (amended) on a three-game season whose middle game times
out and whose other games succeed. -/
theorem season_isolation_witness :
    seasonMatchups stepTimeout1 [0, 1, 2] [] =
      Except.ok ([] ++
        ([0, 1, 2].map (fun g => ((stepTimeout1 g).toOption).getD [])).flatten) :=
  season_isolation_amended stepTimeout1 [0, 1, 2] []
    (by intro g hg; fin_cases hg <;> simp [stepTimeout1])

/-- One cell of the adjusted matchup table consumed by
`Adjusted.fit_regression`: numeric, or a player-name string in a roster
column. -/
inductive Cell where
  | num (q : ℚ)
  | str (s : String)
deriving DecidableEq

/-- A row of the adjusted matchup table, as a map from column name to cell;
`none` is a missing cell (NaN). -/
abbrev Row := String → Option Cell

/-- Reading a cell as a float for the design matrix, and the `NaN`-skipping
behaviour of `DataFrame.sum(axis=1)`: a missing or non-numeric entry
contributes `0`. -/
def cellNum : Option Cell → ℚ
  | some (Cell.num q) => q
  | _ => 0

/-- `dropna` keeps a row exactly when every column's cell is present. -/
def rowComplete (cols : List String) (r : Row) : Bool :=
  cols.all fun c => (r c).isSome

/-- `dict(zip(player_names, parameters))` followed by `[name]`: Python dict
lookup where a later binding for the same key wins, modelled by searching
the reversed association list. -/
def dictLookup : List (String × ℚ) → String → Option ℚ
  | [], _ => none
  | (k, v) :: rest, nm => if nm = k then some v else dictLookup rest nm

/-- The body of the `for player_col in self.data_config['players']` loop of
`Adjusted.fit_regression` for one roster column `pc`: copy the roster cell
into the output record, then attach the column `pc + "_apm"` holding that
player's ridge coefficient.  The whole step is inside a `try`, and a
coefficient lookup miss (`KeyError`) skips the rest of the step, leaving
the `_apm` entry absent; a missing roster cell leaves both entries absent
(the absent entries become NaN in the assembled frame). -/
def addPlayerCols (params : String → Option ℚ) (r : Row)
    (acc : String → Option Cell) (pc : String) : String → Option Cell :=
  match r pc with
  | some (Cell.str nm) =>
    let acc1 := fun c => if c = pc then some (Cell.str nm) else acc c
    match params nm with
    | some v => fun c => if c = pc ++ "_apm" then some (Cell.num v) else acc1 c
    | none => acc1
  | some (Cell.num q) => fun c => if c = pc then some (Cell.num q) else acc c
  | none => acc

/-- One row of the rated output table: the rebuilt record (roster, `_apm`
and `outcome` columns) plus the lineup aggregate column `lineup_apm`. -/
structure RatedRow where
  vals : String → Option Cell
  lineup_apm : ℚ

/-- Build one rated record: run the roster-column loop, reattach `outcome`,
and set `lineup_apm` to the `NaN`-skipping row sum of the configured
`players_apm` columns divided by `5`. -/
def buildRated (params : String → Option ℚ) (playersCfg apmCols : List String)
    (r : Row) : RatedRow :=
  let vals0 := playersCfg.foldl (addPlayerCols params r) (fun _ => none)
  let vals := fun c => if c = "outcome" then r "outcome" else vals0 c
  ⟨vals, ((apmCols.map (fun c => cellNum (vals c))).sum) / 5⟩

/-- The two artefacts of `Adjusted.fit_regression`: the per-player ridge
coefficients (`self.player_params`) and the rated table
(`self.matchups_ridge`). -/
structure FitOut where
  player_params : String → Option ℚ
  rated : List RatedRow

/-- Embedding of `Adjusted.fit_regression`: drop the incomplete rows, fit
the ridge regression of `margin` on the qualifying players' one-hot columns
(the sklearn solver is the external `ridge` argument producing one
coefficient per player column), zip names with coefficients into the
parameter dict, and rebuild every kept row as a rated record. -/
def fitRegression (cols player_names playersCfg apmCols : List String)
    (ridge : List (List ℚ) → List ℚ → List ℚ) (rows : List Row) : FitOut :=
  let kept := rows.filter (rowComplete cols)
  let X := kept.map (fun r => player_names.map (fun p => cellNum (r p)))
  let Y := kept.map (fun r => cellNum (r "margin"))
  let parameters := ridge X Y
  let params := fun nm => dictLookup ((player_names.zip parameters).reverse) nm
  ⟨params, kept.map (buildRated params playersCfg apmCols)⟩

lemma addPlayerCols_other (params : String → Option ℚ) (r : Row)
    (acc : String → Option Cell) (pc k : String)
    (hk1 : k ≠ pc) (hk2 : k ≠ pc ++ "_apm") :
    addPlayerCols params r acc pc k = acc k := by
  unfold addPlayerCols
  cases hr : r pc with
  | none => rfl
  | some cell =>
    cases cell with
    | num q => simp [hk1]
    | str nm =>
      cases hp : params nm with
      | none => simp [hp, hk1]
      | some v => simp [hp, hk1, hk2]

lemma addPlayerCols_self_apm (params : String → Option ℚ) (r : Row)
    (acc : String → Option Cell) (pc nm : String) (v : ℚ)
    (hr : r pc = some (Cell.str nm)) (hp : params nm = some v) :
    addPlayerCols params r acc pc (pc ++ "_apm") = some (Cell.num v) := by
  simp [addPlayerCols, hr, hp]

lemma foldl_addPlayerCols_preserve (params : String → Option ℚ) (r : Row)
    (l : List String) (acc : String → Option Cell) (k : String)
    (h1 : ∀ x ∈ l, k ≠ x) (h2 : ∀ x ∈ l, k ≠ x ++ "_apm") :
    (l.foldl (addPlayerCols params r) acc) k = acc k := by
  induction l generalizing acc with
  | nil => rfl
  | cons x xs ih =>
    rw [List.foldl_cons,
      ih _ (fun y hy => h1 y (List.mem_cons_of_mem x hy))
        (fun y hy => h2 y (List.mem_cons_of_mem x hy))]
    exact addPlayerCols_other params r acc x k
      (h1 x (List.mem_cons_self x xs)) (h2 x (List.mem_cons_self x xs))

lemma str_append_cancel {a b : String} (s : String) (h : a ++ s = b ++ s) :
    a = b := by
  apply String.ext
  have hd := congrArg String.data h
  rw [String.data_append, String.data_append] at hd
  exact List.append_cancel_right hd

lemma foldl_apm_final (params : String → Option ℚ) (r : Row)
    (l : List String) (acc : String → Option Cell) (pc nm : String) (v : ℚ)
    (hr : r pc = some (Cell.str nm)) (hp : params nm = some v)
    (hpc : pc ∈ l) (hd : pc ++ "_apm" ∉ l) :
    (l.foldl (addPlayerCols params r) acc) (pc ++ "_apm") = some (Cell.num v) := by
  revert hpc hd
  induction l generalizing acc with
  | nil => intro hpc _; exact absurd hpc (List.not_mem_nil pc)
  | cons x xs ih =>
    intro hpc hd
    rw [List.foldl_cons]
    by_cases hxs : pc ∈ xs
    · exact ih _ hxs (fun hmem => hd (List.mem_cons_of_mem x hmem))
    · have hpcx : pc = x := by
        rcases List.mem_cons.mp hpc with h | h
        · exact h
        · exact absurd h hxs
      subst hpcx
      rw [foldl_addPlayerCols_preserve params r xs _ (pc ++ "_apm")
        (fun y hy heq => hd (List.mem_cons_of_mem pc (by rw [heq]; exact hy)))
        (fun y hy heq => hxs (by rw [str_append_cancel "_apm" heq]; exact hy))]
      exact addPlayerCols_self_apm params r acc pc nm v hr hp

/-- C9 (amended): `fit_regression` drops every row with a missing value
before the ridge fit, and on every rated row all of whose configured
home-roster players carry a ridge coefficient, the lineup aggregate equals
the sum of those five coefficients divided by `5`; a roster player without
a coefficient is silently omitted instead. -/
theorem fit_regression_lineup_apm
    (cols player_names playersCfg apmCols homeCfg : List String)
    (ridge : List (List ℚ) → List ℚ → List ℚ) (rows : List Row)
    (nm : String → String) (cf : String → ℚ) (r : Row)
    (hapm : apmCols = homeCfg.map (fun pc => pc ++ "_apm"))
    (hsub : ∀ pc ∈ homeCfg, pc ∈ playersCfg)
    (hfresh : ∀ pc ∈ homeCfg, pc ++ "_apm" ∉ playersCfg)
    (hout : ∀ pc ∈ homeCfg, pc ++ "_apm" ≠ "outcome")
    (hkept : r ∈ rows.filter (rowComplete cols))
    (hlook : ∀ pc ∈ homeCfg, r pc = some (Cell.str (nm pc)) ∧
      (fitRegression cols player_names playersCfg apmCols ridge rows).player_params
        (nm pc) = some (cf pc)) :
    (∀ q ∈ rows.filter (rowComplete cols), rowComplete cols q = true)
  ∧ buildRated
      (fitRegression cols player_names playersCfg apmCols ridge rows).player_params
      playersCfg apmCols r ∈
      (fitRegression cols player_names playersCfg apmCols ridge rows).rated
  ∧ (buildRated
      (fitRegression cols player_names playersCfg apmCols ridge rows).player_params
      playersCfg apmCols r).lineup_apm = (homeCfg.map cf).sum / 5 := by
  subst hapm
  refine ⟨?_, ?_, ?_⟩
  · intro q hq
    exact List.of_mem_filter hq
  · simp only [fitRegression]
    exact List.mem_map_of_mem _ hkept
  · simp only [buildRated, List.map_map]
    congr 1
    congr 1
    refine List.map_congr_left ?_
    intro pc hpc
    simp only [Function.comp]
    rw [if_neg (hout pc hpc)]
    rw [foldl_apm_final _ r playersCfg _ pc (nm pc) (cf pc)
      (hlook pc hpc).1 (hlook pc hpc).2 (hsub pc hpc) (hfresh pc hpc)]
    rfl

/-- The column set of the C9 witness table. -/
def colsW : List String := ["h0", "margin", "outcome"]

/-- The single complete row of the C9 witness table. -/
def rowW : Row := fun c =>
  if c = "h0" then some (Cell.str "A")
  else if c = "margin" then some (Cell.num 0)
  else if c = "outcome" then some (Cell.num 1)
  else none

/-- The external ridge solver of the C9 witness: one coefficient for the one
player column. -/
def ridgeW : List (List ℚ) → List ℚ → List ℚ := fun _ _ => [1]

/-- Witness for C9 (amended) on a one-row, one-player-column table. -/
theorem fit_regression_lineup_apm_witness :
    (∀ q ∈ [rowW].filter (rowComplete colsW), rowComplete colsW q = true)
  ∧ buildRated (fitRegression colsW ["A"] ["h0"] ["h0_apm"] ridgeW [rowW]).player_params
      ["h0"] ["h0_apm"] rowW ∈
      (fitRegression colsW ["A"] ["h0"] ["h0_apm"] ridgeW [rowW]).rated
  ∧ (buildRated (fitRegression colsW ["A"] ["h0"] ["h0_apm"] ridgeW [rowW]).player_params
      ["h0"] ["h0_apm"] rowW).lineup_apm = (["h0"].map (fun _ => (1:ℚ))).sum / 5 :=
  fit_regression_lineup_apm colsW ["A"] ["h0"] ["h0_apm"] ["h0"] ridgeW [rowW]
    (fun _ => "A") (fun _ => (1:ℚ)) rowW
    (by decide) (by decide) (by decide) (by decide)
    (by have h : [rowW].filter (rowComplete colsW) = [rowW] := rfl
        rw [h]; exact List.mem_singleton_self rowW)
    (by intro pc hpc
        have hpc' : pc = "h0" := List.mem_singleton.mp hpc
        subst hpc'
        exact ⟨rfl, rfl⟩)

/-- The column set of the C9 counterexample table. -/
def cols9 : List String := ["h0", "h1", "h2", "h3", "h4", "margin", "outcome"]

/-- The qualifying player names of the C9 counterexample (player `Z` of the
row's roster is below the minutes threshold and has no column). -/
def names9 : List String := ["A", "B", "C", "D", "E"]

/-- The configured roster columns of the C9 counterexample. -/
def cfg9 : List String := ["h0", "h1", "h2", "h3", "h4"]

/-- The configured `players_apm` columns of the C9 counterexample. -/
def apm9 : List String := ["h0_apm", "h1_apm", "h2_apm", "h3_apm", "h4_apm"]

/-- The external ridge solver of the C9 counterexample: coefficients
`1..5` for the five qualifying players. -/
def ridge9 : List (List ℚ) → List ℚ → List ℚ := fun _ _ => [1, 2, 3, 4, 5]

/-- The single row of the C9 counterexample: its fifth roster player `Z` is
not in the qualifying pool, so `player_params` has no coefficient for it. -/
def row9 : Row := fun c =>
  if c = "h0" then some (Cell.str "A")
  else if c = "h1" then some (Cell.str "B")
  else if c = "h2" then some (Cell.str "C")
  else if c = "h3" then some (Cell.str "D")
  else if c = "h4" then some (Cell.str "Z")
  else if c = "margin" then some (Cell.num 0)
  else if c = "outcome" then some (Cell.num 1)
  else none

/-- C9 counterexample: the rated output contains a row whose `h4_apm`
column is missing (its roster player has no ridge coefficient), and whose
lineup aggregate is `(1+2+3+4)/5 = 2` — the sum of the four present
coefficients divided by five, not the mean of five per-player ridge
coefficients. -/
theorem fit_regression_missing_apm_cex :
    (fitRegression cols9 names9 cfg9 apm9 ridge9 [row9]).rated.map
      (fun rr => ((rr.vals "h4_apm").isSome, rr.lineup_apm)) = [(false, 2)] := by
  norm_num +decide [fitRegression, buildRated, addPlayerCols, rowComplete, cellNum,
    cols9, names9, cfg9, apm9, ridge9, row9, List.filter, List.all,
    List.foldl, dictLookup, List.zip, List.zipWith, List.reverse,
    List.reverseAux]
